import Mathlib

/-!
Verification development for the vendored skipper static filter
(`vendor/github.com/zalando/skipper/filters/builtin/static.go`).

The file shallowly embeds the `delayedBody` pipe bridge and the `static`
filter. Bytes are modeled as `Nat`, Go `int` as `Int`, the `io.Pipe` as an
explicit state record, and the single-goroutine producer driven by
`http.ServeFile` as an explicit sequence of sink actions. Diagnostics and
ordering-sensitive effects of `WriteHeader` are recorded as an event trace.
-/

namespace Skipper

/-- Model of the Go `io.Pipe` pair used by `delayedBody`. `written` is the
sequence of bytes successfully transferred through the pipe (each successful
`Write` blocks until the reader consumes it, so successfully written bytes
are exactly the readable ones); `readPos` is how many of them the consumer
has already read; `closed` records that the write end was closed
(`Close`/`CloseWithError`); `readerClosed` records that the read end was
closed. -/
structure PipeState where
  written : List Nat
  readPos : Nat
  closed : Bool
  readerClosed : Bool
deriving DecidableEq

/-- Fresh pipe as produced by `io.Pipe()`. -/
def emptyPipe : PipeState :=
  { written := [], readPos := 0, closed := false, readerClosed := false }

/-- Model of `io.PipeWriter.Write`: fails with `ErrClosedPipe` (modeled as
`some ()`) when either end is closed, otherwise transfers all bytes. -/
def pipeWrite (p : PipeState) (data : List Nat) : (Nat × Option Unit) × PipeState :=
  if p.closed ∨ p.readerClosed then ((0, some ()), p)
  else ((data.length, none), { p with written := p.written ++ data })

/-- Model of `io.PipeWriter.Close` / `CloseWithError`: marks the write end
closed (idempotent, the first error sticks). -/
def pipeCloseWrite (p : PipeState) : PipeState :=
  { p with closed := true }

/-- Outcome of one `Read` call on the pipe read end. -/
inductive ReadOutcome
  | bytes (data : List Nat)
  | eof
  | errClosed
  | blocked
deriving DecidableEq

/-- Model of `io.PipeReader.Read`: after the read end itself was closed the
call returns `ErrClosedPipe`; otherwise it returns remaining transferred
bytes, `io.EOF` once the write end is closed and the data drained, and
blocks while the pipe is open and empty. -/
def pipeRead (p : PipeState) (n : Nat) : ReadOutcome × PipeState :=
  if p.readerClosed then (ReadOutcome.errClosed, p)
  else
    let avail := p.written.drop p.readPos
    if avail = [] then
      if p.closed then (ReadOutcome.eof, p) else (ReadOutcome.blocked, p)
    else
      let k := min n avail.length
      (ReadOutcome.bytes (avail.take k), { p with readPos := p.readPos + k })

/-- Every byte the consumer can still read before observing end-of-stream:
defined (`some`) exactly when the write end is closed (so end-of-stream is
reachable) and the read end is still open. -/
def readAll (p : PipeState) : Option (List Nat) :=
  if p.readerClosed then none
  else if p.closed then some (p.written.drop p.readPos) else none

/-- The relevant part of `*http.Request`: `static.Request` reads
`req.URL.Path`, `delayedBody` reads `req.Method`. -/
structure GoRequest where
  method : String
  urlPath : String
deriving DecidableEq

/-- The two response headers `delayedBody.WriteHeader` consults, as returned
by `http.Header.Get` (absent key yields `""`). -/
structure HttpHeader where
  contentEncoding : String
  contentLength : String
deriving DecidableEq

/-- Header map of a fresh `http.Response`. -/
def emptyHeader : HttpHeader :=
  { contentEncoding := "", contentLength := "" }

/-- State of the Go `delayedBody` struct together with the shared
`http.Response` fields it mutates (`response.StatusCode`) and the pipe it
owns. `headerDone` records whether the `headerDone` channel was closed. -/
structure DelayedBody where
  request : GoRequest
  header : HttpHeader
  statusCode : Int
  contentLength : Int
  written : Int
  headerDone : Bool
  pipe : PipeState
deriving DecidableEq

/-- The `delayedBody` built inside `newDelayed` before the producer runs:
fresh pipe, zero-valued counters, open `headerDone` channel. -/
def initBody (req : GoRequest) : DelayedBody :=
  { request := req, header := emptyHeader, statusCode := 0, contentLength := 0,
    written := 0, headerDone := false, pipe := emptyPipe }

/-- Go constant `http.StatusMultipleChoices`. -/
def statusMultipleChoices : Int := 300

/-- Go constant `http.StatusBadRequest`. -/
def statusBadRequest : Int := 400

/-- Go constant `http.StatusNotFound`. -/
def statusNotFound : Int := 404

/-- Model of Go `strconv.Atoi`: optional sign, decimal digits only, syntax
errors on empty or non-digit input, range errors outside the 64-bit `int`
range. Errors are collapsed to `Except.error ()` since the code only tests
`err != nil`. -/
def goAtoi (s : String) : Except Unit Int :=
  match s.data with
  | [] => Except.error ()
  | c :: rest =>
    let neg := c = '-'
    let digits := if c = '-' ∨ c = '+' then rest else c :: rest
    if digits = [] then Except.error ()
    else if digits.all (fun d => decide ('0' ≤ d ∧ d ≤ '9')) then
      let n : Nat := digits.foldl (fun acc d => 10 * acc + (d.toNat - 48)) 0
      if neg then
        if n ≤ 2 ^ 63 then Except.ok (-(n : Int)) else Except.error ()
      else
        if n < 2 ^ 63 then Except.ok (n : Int) else Except.error ()
    else Except.error ()

/-- Bytes of an ASCII string, as written to the pipe by
`b.writer.Write([]byte(...))`. -/
def strBytes (s : String) : List Nat := s.data.map Char.toNat

/-- Model of Go `http.StatusText`: the standard reason phrase for a status
code, `""` for unknown codes. -/
def statusText (code : Int) : String :=
  if code = 100 then "Continue"
  else if code = 101 then "Switching Protocols"
  else if code = 200 then "OK"
  else if code = 201 then "Created"
  else if code = 202 then "Accepted"
  else if code = 203 then "Non-Authoritative Information"
  else if code = 204 then "No Content"
  else if code = 205 then "Reset Content"
  else if code = 206 then "Partial Content"
  else if code = 300 then "Multiple Choices"
  else if code = 301 then "Moved Permanently"
  else if code = 302 then "Found"
  else if code = 303 then "See Other"
  else if code = 304 then "Not Modified"
  else if code = 305 then "Use Proxy"
  else if code = 307 then "Temporary Redirect"
  else if code = 400 then "Bad Request"
  else if code = 401 then "Unauthorized"
  else if code = 402 then "Payment Required"
  else if code = 403 then "Forbidden"
  else if code = 404 then "Not Found"
  else if code = 405 then "Method Not Allowed"
  else if code = 406 then "Not Acceptable"
  else if code = 407 then "Proxy Authentication Required"
  else if code = 408 then "Request Timeout"
  else if code = 409 then "Conflict"
  else if code = 410 then "Gone"
  else if code = 411 then "Length Required"
  else if code = 412 then "Precondition Failed"
  else if code = 413 then "Request Entity Too Large"
  else if code = 414 then "Request URI Too Long"
  else if code = 415 then "Unsupported Media Type"
  else if code = 416 then "Requested Range Not Satisfiable"
  else if code = 417 then "Expectation Failed"
  else if code = 418 then "I\x27m a teapot"
  else if code = 428 then "Precondition Required"
  else if code = 429 then "Too Many Requests"
  else if code = 431 then "Request Header Fields Too Large"
  else if code = 500 then "Internal Server Error"
  else if code = 501 then "Not Implemented"
  else if code = 502 then "Bad Gateway"
  else if code = 503 then "Service Unavailable"
  else if code = 504 then "Gateway Timeout"
  else if code = 505 then "HTTP Version Not Supported"
  else if code = 511 then "Network Authentication Required"
  else ""

/-- Observable effects of one `WriteHeader` call, in program order:
assignment of `response.StatusCode`, closing of the pipe write end, closing
of the `headerDone` channel, a successful text write into the pipe, and a
`log.Error` diagnostic. -/
inductive Ev
  | setStatus (status : Int)
  | closedPipe
  | firedHeaderDone
  | wrotePipe (data : List Nat)
  | logged
deriving DecidableEq

/-- Model of `delayedBody.Write` (static.go lines 65-87): a silent no-op on
HEAD requests or a status of 300 or above; otherwise the bytes are forwarded
into the pipe, a pipe failure is propagated, and when `contentLength` is
non-negative the running count is updated and the pipe is closed with EOF
once the count reaches `contentLength`. -/
def DelayedBody.write (b : DelayedBody) (data : List Nat) : (Nat × Option Unit) × DelayedBody :=
  if b.request.method = "HEAD" ∨ statusMultipleChoices ≤ b.statusCode then
    ((0, none), b)
  else
    match pipeWrite b.pipe data with
    | ((n, some e), p) => ((n, some e), { b with pipe := p })
    | ((n, none), p) =>
      if 0 ≤ b.contentLength then
        if b.contentLength ≤ b.written + (n : Int) then
          ((n, none), { b with written := b.written + (n : Int), pipe := pipeCloseWrite p })
        else
          ((n, none), { b with written := b.written + (n : Int), pipe := p })
      else
        ((n, none), { b with pipe := p })

/-- Model of `delayedBody.WriteHeader` (static.go lines 92-139), returning
the new state together with the trace of its observable effects. Branches in
source order: HEAD or redirect (close pipe, then close `headerDone`); error
status (close `headerDone`, write the reason phrase, log a write failure,
close the pipe); Content-Encoding set (record unknown length); otherwise
parse Content-Length (close the pipe on zero or a parse error, logging the
error when the header was non-empty, else record the length). -/
def DelayedBody.writeHeader (b : DelayedBody) (status : Int) : DelayedBody × List Ev :=
  if b.request.method = "HEAD" ∨ (statusMultipleChoices ≤ status ∧ status < statusBadRequest) then
    ({ b with statusCode := status, pipe := pipeCloseWrite b.pipe, headerDone := true },
      [Ev.setStatus status, Ev.closedPipe, Ev.firedHeaderDone])
  else if statusBadRequest ≤ status then
    match pipeWrite b.pipe (strBytes (statusText status)) with
    | ((_, none), p) =>
      ({ b with statusCode := status, headerDone := true, pipe := pipeCloseWrite p },
        [Ev.setStatus status, Ev.firedHeaderDone,
          Ev.wrotePipe (strBytes (statusText status)), Ev.closedPipe])
    | ((_, some _), p) =>
      ({ b with statusCode := status, headerDone := true, pipe := pipeCloseWrite p },
        [Ev.setStatus status, Ev.firedHeaderDone, Ev.logged, Ev.closedPipe])
  else if b.header.contentEncoding ≠ "" then
    ({ b with statusCode := status, contentLength := -1, headerDone := true },
      [Ev.setStatus status, Ev.firedHeaderDone])
  else
    match goAtoi b.header.contentLength with
    | Except.error _ =>
      ({ b with statusCode := status, pipe := pipeCloseWrite b.pipe, headerDone := true },
        Ev.setStatus status ::
          ((if b.header.contentLength ≠ "" then [Ev.logged] else []) ++
            [Ev.closedPipe, Ev.firedHeaderDone]))
    | Except.ok cl =>
      if cl = 0 then
        ({ b with statusCode := status, pipe := pipeCloseWrite b.pipe, headerDone := true },
          [Ev.setStatus status, Ev.closedPipe, Ev.firedHeaderDone])
      else
        ({ b with statusCode := status, contentLength := cl, headerDone := true },
          [Ev.setStatus status, Ev.firedHeaderDone])

/-- Model of `delayedBody.Read` (static.go line 60): delegates to the pipe
read end. -/
def DelayedBody.read (b : DelayedBody) (n : Nat) : ReadOutcome × DelayedBody :=
  ((pipeRead b.pipe n).1, { b with pipe := (pipeRead b.pipe n).2 })

/-- Model of `delayedBody.Close` (static.go lines 141-145): closes the read
end, then the write end, and always returns `nil`. -/
def DelayedBody.close (b : DelayedBody) : Option Unit × DelayedBody :=
  (none, { b with pipe := { b.pipe with readerClosed := true, closed := true } })

/-- Runs a sequence of producer `Write` calls against the bridge, keeping
only the resulting state. -/
def runWrites : DelayedBody → List (List Nat) → DelayedBody
  | b, [] => b
  | b, d :: ds => runWrites (b.write d).2 ds

/-- Total byte count of a sequence of write buffers. -/
def sumLen (ds : List (List Nat)) : Nat := (ds.map List.length).sum

/-- One sink operation performed by the producer goroutine
(`http.ServeFile` running against the `delayedBody` as its
`http.ResponseWriter`): setting one of the two relevant response headers,
calling `WriteHeader`, or calling `Write`. The file-serving algorithm itself
is external to the unit, so the producer is quantified over all such
sequences. -/
inductive ProdAct
  | setContentEncoding (v : String)
  | setContentLength (v : String)
  | wh (status : Int)
  | wr (data : List Nat)
deriving DecidableEq

/-- Effect of one producer action on the bridge state. -/
def applyAct (b : DelayedBody) : ProdAct → DelayedBody
  | ProdAct.setContentEncoding v => { b with header := { b.header with contentEncoding := v } }
  | ProdAct.setContentLength v => { b with header := { b.header with contentLength := v } }
  | ProdAct.wh s => (b.writeHeader s).1
  | ProdAct.wr d => (b.write d).2

/-- Runs producer actions until the `headerDone` channel is closed,
returning the bridge state observed at that moment together with the
actions the producer has not yet performed; `none` models the constructor
blocking forever because the signal never fires. -/
def runUntilHeader (b : DelayedBody) : List ProdAct → Option (DelayedBody × List ProdAct)
  | [] => if b.headerDone then some (b, []) else none
  | a :: rest =>
    if b.headerDone then some (b, a :: rest)
    else runUntilHeader (applyAct b a) rest

/-- The `*http.Response` returned by `newDelayed`: its `StatusCode` and
`Header` as observed when `<-db.headerDone` unblocks, and the bridge itself
as `Body`. -/
structure GoResponse where
  statusCode : Int
  header : HttpHeader
  body : DelayedBody
deriving DecidableEq

/-- Model of `newDelayed` (static.go lines 45-58): builds a fresh bridge,
runs the producer concurrently, blocks until `headerDone` is closed, and
returns the response snapshot plus the producer actions still outstanding. -/
def newDelayed (req : GoRequest) (acts : List ProdAct) : Option (GoResponse × List ProdAct) :=
  match runUntilHeader (initBody req) acts with
  | none => none
  | some (b, rest) =>
    some ({ statusCode := b.statusCode, header := b.header, body := b }, rest)

/-- Backtracking step of Go `path.Clean` when `..` is met and output is
available: with the output buffer held in reverse, drop characters until a
`/` has been dropped or the output length reaches the `..`-barrier `dd`. -/
def cleanBacktrack (dd : Nat) : List Char → List Char
  | [] => []
  | c :: rest => if rest.length > dd ∧ c ≠ '/' then cleanBacktrack dd rest else rest

/-- Main loop of Go `path.Clean` over the remaining input, with the output
buffer in reverse order and `dd` the index limiting `..`-backtracking. The
four cases mirror the source: a separator, a `.` element, a `..` element
(backtrack, or skip at a rooted start, or emit `..`), and a literal element
copied up to the next separator. -/
def cleanLoop (rooted : Bool) : List Char → List Char → Nat → List Char
  | [], out, _ => out
  | c :: rest, out, dd =>
    if c = '/' then
      cleanLoop rooted rest out dd
    else if c = '.' ∧ (rest = [] ∨ rest.head? = some '/') then
      cleanLoop rooted rest out dd
    else if c = '.' ∧ rest.head? = some '.' ∧ (rest.tail = [] ∨ rest.tail.head? = some '/') then
      if out.length > dd then
        cleanLoop rooted rest.tail (cleanBacktrack dd out) dd
      else if rooted then
        cleanLoop rooted rest.tail out dd
      else
        let out2 := '.' :: '.' :: (if 0 < out.length then '/' :: out else out)
        cleanLoop rooted rest.tail out2 out2.length
    else
      let out2 := (c :: rest.takeWhile (fun x => x ≠ '/')).reverse ++
        (if (rooted ∧ out.length ≠ 1) ∨ (¬ rooted ∧ out.length ≠ 0) then '/' :: out else out)
      cleanLoop rooted (rest.dropWhile (fun x => x ≠ '/')) out2 dd
termination_by l => l.length
decreasing_by
  all_goals simp
  · omega
  · omega
  · omega
  · exact Nat.lt_succ_of_le (List.dropWhile_sublist _).length_le

/-- Model of Go `path.Clean`. -/
def clean (p : String) : String :=
  if p = "" then "." else
  let cs := p.data
  let out :=
    if cs.head? = some '/' then cleanLoop true cs ['/'] 1
    else cleanLoop false cs [] 0
  if out = [] then "." else String.mk out.reverse

/-- Model of Go `path.Join` on two elements: skip leading empty elements,
join with `/`, and clean. -/
def pathJoin (a b : String) : String :=
  if a ≠ "" then clean (a ++ "/" ++ b)
  else if b ≠ "" then clean b
  else ""

/-- The `static` filter instance: configured URL path web root and file
system root. -/
structure Static where
  webRoot : String
  root : String
deriving DecidableEq

/-- A response emitted through the filter context: the bare
`&http.Response{StatusCode: ...}` with no body, or the response produced by
`newDelayed` over the given file system path. -/
inductive ServedRsp
  | plain (statusCode : Int)
  | delayedOver (servedPath : String)
deriving DecidableEq

/-- Modelled from the spec: the filter context handed in by the
filter-chain framework (the `filters` package is not among the sources).
Its `Serve` capability emits a response object and marks the request as
served, terminally handled by this filter. -/
structure FilterContext where
  request : GoRequest
  served : Bool
  response : Option ServedRsp
deriving DecidableEq

/-- Modelled from the spec: `FilterContext.Serve` records the emitted
response and marks the request served. -/
def FilterContext.Serve (ctx : FilterContext) (r : ServedRsp) : FilterContext :=
  { ctx with served := true, response := some r }

/-- Model of `static.Request` (static.go lines 183-193): a request path
shorter than the configured web root is answered with a bare 404; otherwise
the web-root-length leading characters are stripped from the request path,
the remainder is joined onto the file system root, and the `newDelayed`
response over that path is served. -/
def Static.Request (f : Static) (ctx : FilterContext) : FilterContext :=
  let p := ctx.request.urlPath
  if p.length < f.webRoot.length then
    ctx.Serve (ServedRsp.plain statusNotFound)
  else
    ctx.Serve (ServedRsp.delayedOver (pathJoin f.root (p.drop f.webRoot.length)))

/-- Concrete bridge over a GET request whose producer declares
`Content-Length: 1` and no Content-Encoding. -/
def clBody : DelayedBody :=
  { initBody ⟨"GET", "/f"⟩ with header := { contentEncoding := "", contentLength := "1" } }

/-- Concrete bridge over a GET request whose producer declares
`Content-Length: 2` and no Content-Encoding. -/
def clBody2 : DelayedBody :=
  { initBody ⟨"GET", "/f"⟩ with header := { contentEncoding := "", contentLength := "2" } }

theorem write_noop (b : DelayedBody) (d : List Nat)
    (h : b.request.method = "HEAD" ∨ statusMultipleChoices ≤ b.statusCode) :
    b.write d = ((0, none), b) := by
  unfold DelayedBody.write
  rw [if_pos h]

theorem runWrites_noop (ds : List (List Nat)) (b : DelayedBody)
    (h : b.request.method = "HEAD" ∨ statusMultipleChoices ≤ b.statusCode) :
    runWrites b ds = b := by
  induction ds with
  | nil => rfl
  | cons d ds ih =>
    simp only [runWrites]
    rw [write_noop b d h]
    exact ih

theorem write_closed_unchanged (b : DelayedBody) (d : List Nat) (h : b.pipe.closed = true) :
    (b.write d).2 = b := by
  unfold DelayedBody.write
  by_cases h1 : b.request.method = "HEAD" ∨ statusMultipleChoices ≤ b.statusCode
  · rw [if_pos h1]
  · rw [if_neg h1]
    unfold pipeWrite
    rw [if_pos (Or.inl h)]

theorem write_closed_err (b : DelayedBody) (d : List Nat) (h : b.pipe.closed = true)
    (h1 : ¬(b.request.method = "HEAD" ∨ statusMultipleChoices ≤ b.statusCode)) :
    (b.write d).1 = (0, some ()) := by
  unfold DelayedBody.write
  rw [if_neg h1]
  unfold pipeWrite
  rw [if_pos (Or.inl h)]

theorem runWrites_closed (ds : List (List Nat)) (b : DelayedBody) (h : b.pipe.closed = true) :
    runWrites b ds = b := by
  induction ds with
  | nil => rfl
  | cons d ds ih =>
    simp only [runWrites]
    rw [write_closed_unchanged b d h]
    exact ih

theorem write_headerDone (b : DelayedBody) (d : List Nat) :
    ((b.write d).2).headerDone = b.headerDone := by
  unfold DelayedBody.write
  repeat' split
  all_goals rfl

theorem writeHeader_fields (b : DelayedBody) (s : Int) :
    ((b.writeHeader s).1).statusCode = s ∧ ((b.writeHeader s).1).headerDone = true := by
  unfold DelayedBody.writeHeader
  repeat' split
  all_goals exact ⟨rfl, rfl⟩

/-- C8: a single `WriteHeader` invocation assigns the status code as its
first observable effect, hence before the header-ready signal, leaves the
signal fired, and every control path closes the one-shot channel exactly
once: the trace is `setStatus` followed by events among which
`firedHeaderDone` occurs exactly once. -/
theorem writeHeader_status_first_signal_once (b : DelayedBody) (s : Int) :
    (b.writeHeader s).1.statusCode = s ∧
    (b.writeHeader s).1.headerDone = true ∧
    ∃ l₁ l₂, (b.writeHeader s).2 = Ev.setStatus s :: (l₁ ++ Ev.firedHeaderDone :: l₂) ∧
      Ev.firedHeaderDone ∉ l₁ ∧ Ev.firedHeaderDone ∉ l₂ := by
  unfold DelayedBody.writeHeader
  repeat' split
  · exact ⟨rfl, rfl, [Ev.closedPipe], [], rfl, by simp, by simp⟩
  · exact ⟨rfl, rfl, [], [Ev.wrotePipe (strBytes (statusText s)), Ev.closedPipe], rfl,
      by simp, by simp⟩
  · exact ⟨rfl, rfl, [], [Ev.logged, Ev.closedPipe], rfl, by simp, by simp⟩
  · exact ⟨rfl, rfl, [], [], rfl, by simp, by simp⟩
  · exact ⟨rfl, rfl, [Ev.logged, Ev.closedPipe], [], rfl, by simp, by simp⟩
  · exact ⟨rfl, rfl, [Ev.closedPipe], [], rfl, by simp, by simp⟩
  · exact ⟨rfl, rfl, [Ev.closedPipe], [], rfl, by simp, by simp⟩
  · exact ⟨rfl, rfl, [], [], rfl, by simp, by simp⟩

/-- C2: on a HEAD request, and likewise for any redirect-class status in
`[300, 400)`, header-finalize force-closes the pipe before firing the
header-ready signal, every subsequent body `Write` is a no-op returning
`(0, nil)`, and the consumer reads a zero-length body regardless of what the
producer attempts to write. -/
theorem head_or_redirect_empty_body (b : DelayedBody) (s : Int)
    (hp : b.pipe = emptyPipe)
    (h : b.request.method = "HEAD" ∨ (300 ≤ s ∧ s < 400)) :
    (b.writeHeader s).2 = [Ev.setStatus s, Ev.closedPipe, Ev.firedHeaderDone] ∧
    (b.writeHeader s).1.pipe.closed = true ∧
    (∀ d, (b.writeHeader s).1.write d = ((0, none), (b.writeHeader s).1)) ∧
    (∀ ds, readAll (runWrites (b.writeHeader s).1 ds).pipe = some []) := by
  have hcond : b.request.method = "HEAD" ∨
      (statusMultipleChoices ≤ s ∧ s < statusBadRequest) := h
  have hb : b.writeHeader s =
      ({ b with statusCode := s, pipe := pipeCloseWrite b.pipe, headerDone := true },
        [Ev.setStatus s, Ev.closedPipe, Ev.firedHeaderDone]) := by
    unfold DelayedBody.writeHeader
    rw [if_pos hcond]
  have hno : ∀ d,
      ({ b with statusCode := s, pipe := pipeCloseWrite b.pipe, headerDone := true } :
        DelayedBody).write d =
      ((0, none),
        { b with statusCode := s, pipe := pipeCloseWrite b.pipe, headerDone := true }) := by
    intro d
    exact write_noop _ d (h.imp id fun hr => hr.1)
  rw [hb]
  dsimp only
  refine ⟨rfl, rfl, hno, fun ds => ?_⟩
  rw [runWrites_noop ds
    { b with statusCode := s, pipe := pipeCloseWrite b.pipe, headerDone := true }
    (h.imp id fun hr => hr.1)]
  rw [hp]
  rfl

/-- Closed witness for `head_or_redirect_empty_body`, instantiated at a HEAD
request and status 200. -/
theorem head_or_redirect_empty_body_witness :
    readAll (runWrites ((initBody ⟨"HEAD", "/f"⟩).writeHeader 200).1 [[1, 2, 3]]).pipe =
      some [] := by
  have h := head_or_redirect_empty_body (initBody ⟨"HEAD", "/f"⟩) 200 rfl
    (Or.inl rfl)
  exact h.2.2.2 [[1, 2, 3]]

/-- C3: for an error status of 400 or above on a non-HEAD request,
header-finalize first fires the header-ready signal, then writes the
standard reason phrase into the pipe as the body, then force-closes the
pipe; when that write fails the failure is logged and swallowed and the pipe
is closed all the same, so the consumer sees end-of-stream. -/
theorem error_status_reason_phrase (b : DelayedBody) (s : Int)
    (hm : b.request.method ≠ "HEAD") (hs : 400 ≤ s) :
    (b.writeHeader s).1.pipe.closed = true ∧
    (b.writeHeader s).1.headerDone = true ∧
    (b.pipe.closed = false → b.pipe.readerClosed = false →
      (b.writeHeader s).2 =
        [Ev.setStatus s, Ev.firedHeaderDone,
          Ev.wrotePipe (strBytes (statusText s)), Ev.closedPipe] ∧
      (b.writeHeader s).1.pipe.written = b.pipe.written ++ strBytes (statusText s)) ∧
    ((b.pipe.closed = true ∨ b.pipe.readerClosed = true) →
      (b.writeHeader s).2 = [Ev.setStatus s, Ev.firedHeaderDone, Ev.logged, Ev.closedPipe] ∧
      (b.writeHeader s).1.pipe.written = b.pipe.written) := by
  have h1 : ¬(b.request.method = "HEAD" ∨
      (statusMultipleChoices ≤ s ∧ s < statusBadRequest)) :=
    fun hc => hc.elim hm fun hr => absurd hr.2 (not_lt.mpr hs)
  have h2 : statusBadRequest ≤ s := hs
  unfold DelayedBody.writeHeader
  rw [if_neg h1, if_pos h2]
  unfold pipeWrite
  by_cases hcl : b.pipe.closed = true ∨ b.pipe.readerClosed = true
  · rw [if_pos hcl]
    exact ⟨rfl, rfl,
      fun ho hr => absurd hcl (by simp [ho, hr]),
      fun _ => ⟨rfl, rfl⟩⟩
  · rw [if_neg hcl]
    exact ⟨rfl, rfl,
      fun _ _ => ⟨rfl, rfl⟩,
      fun hc => absurd hc hcl⟩

/-- Closed witness for `error_status_reason_phrase`: a 404 on a fresh GET
bridge pushes the bytes of "Not Found" and closes the pipe. -/
theorem error_status_reason_phrase_witness :
    ((initBody ⟨"GET", "/f"⟩).writeHeader 404).1.pipe.closed = true ∧
    ((initBody ⟨"GET", "/f"⟩).writeHeader 404).1.pipe.written =
      [] ++ strBytes (statusText 404) := by
  have h := error_status_reason_phrase (initBody ⟨"GET", "/f"⟩) 404
    (by decide) (by decide)
  exact ⟨h.1, (h.2.2.1 rfl rfl).2⟩

/-- C5: for a non-HEAD request with a success-class status, no
Content-Encoding, and a Content-Length that is absent (`""`), zero, or
unparseable, header-finalize force-closes the pipe and then fires the
header-ready signal (a parse failure of a non-empty header is logged
first), leaving the consumer an empty body. -/
theorem bad_length_empty_body (b : DelayedBody) (s : Int)
    (hm : b.request.method ≠ "HEAD") (hs : s < 300)
    (hce : b.header.contentEncoding = "")
    (hcl : goAtoi b.header.contentLength = Except.error () ∨
      goAtoi b.header.contentLength = Except.ok 0) :
    (b.writeHeader s).1.pipe.closed = true ∧
    (b.writeHeader s).1.headerDone = true ∧
    (b.writeHeader s).1.pipe.written = b.pipe.written ∧
    (∃ l, (b.writeHeader s).2 =
      Ev.setStatus s :: (l ++ [Ev.closedPipe, Ev.firedHeaderDone])) ∧
    (b.pipe = emptyPipe → readAll (b.writeHeader s).1.pipe = some []) := by
  have h1 : ¬(b.request.method = "HEAD" ∨
      (statusMultipleChoices ≤ s ∧ s < statusBadRequest)) :=
    fun hc => hc.elim hm fun hr => absurd hr.1 (not_le.mpr hs)
  have h2 : ¬statusBadRequest ≤ s := not_le.mpr (lt_trans hs (by norm_num [statusBadRequest]))
  have h3 : ¬b.header.contentEncoding ≠ "" := fun hc => hc hce
  unfold DelayedBody.writeHeader
  rw [if_neg h1, if_neg h2, if_neg h3]
  rcases hcl with he | h0
  · rw [he]
    refine ⟨rfl, rfl, rfl, ⟨if b.header.contentLength ≠ "" then [Ev.logged] else [], rfl⟩,
      fun hp => ?_⟩
    rw [hp]
    rfl
  · rw [h0]
    dsimp only
    rw [if_pos rfl]
    refine ⟨rfl, rfl, rfl, ⟨[], rfl⟩, fun hp => ?_⟩
    rw [hp]
    rfl

/-- Closed witness for `bad_length_empty_body`: a 200 with no
Content-Length on a fresh GET bridge yields a closed pipe and empty body. -/
theorem bad_length_empty_body_witness :
    ((initBody ⟨"GET", "/f"⟩).writeHeader 200).1.pipe.closed = true ∧
    readAll ((initBody ⟨"GET", "/f"⟩).writeHeader 200).1.pipe = some [] := by
  have h := bad_length_empty_body (initBody ⟨"GET", "/f"⟩) 200
    (by decide) (by decide) rfl (Or.inl rfl)
  exact ⟨h.1, h.2.2.2.2 rfl⟩

theorem write_open_neg (b : DelayedBody) (d : List Nat)
    (hm : ¬b.request.method = "HEAD") (hs : b.statusCode < statusMultipleChoices)
    (hcl : b.contentLength < 0)
    (ho : b.pipe.closed = false) (hr : b.pipe.readerClosed = false) :
    b.write d = ((d.length, none),
      { b with pipe := { b.pipe with written := b.pipe.written ++ d } }) := by
  have h1 : ¬(b.request.method = "HEAD" ∨ statusMultipleChoices ≤ b.statusCode) :=
    fun hc => hc.elim hm fun hle => absurd hle (not_le.mpr hs)
  have h2 : ¬(b.pipe.closed = true ∨ b.pipe.readerClosed = true) := by
    simp [ho, hr]
  unfold DelayedBody.write pipeWrite
  rw [if_neg h1, if_neg h2]
  dsimp only
  rw [if_neg (not_le.mpr hcl)]

theorem runWrites_neg_no_autoclose (ds : List (List Nat)) (b : DelayedBody)
    (hm : ¬b.request.method = "HEAD") (hs : b.statusCode < statusMultipleChoices)
    (hcl : b.contentLength < 0)
    (ho : b.pipe.closed = false) (hr : b.pipe.readerClosed = false) :
    (runWrites b ds).pipe.closed = false ∧ (runWrites b ds).pipe.readerClosed = false := by
  induction ds generalizing b with
  | nil => exact ⟨ho, hr⟩
  | cons d ds ih =>
    simp only [runWrites]
    rw [write_open_neg b d hm hs hcl ho hr]
    exact ih _ hm hs hcl ho hr

/-- C4: for a non-HEAD request with a success-class status and a non-empty
Content-Encoding header, header-finalize records an unknown body length
(`-1`) and fires the header-ready signal without closing the pipe, and no
sequence of subsequent writes ever auto-closes the pipe on a byte count:
end-of-stream is never signalled until an explicit close. -/
theorem content_encoding_no_autoclose (b : DelayedBody) (s : Int)
    (hm : b.request.method ≠ "HEAD") (hs : s < 300)
    (hce : b.header.contentEncoding ≠ "") :
    (b.writeHeader s).1.contentLength = -1 ∧
    (b.writeHeader s).1.headerDone = true ∧
    (b.writeHeader s).2 = [Ev.setStatus s, Ev.firedHeaderDone] ∧
    (b.writeHeader s).1.pipe = b.pipe ∧
    (b.pipe.closed = false → b.pipe.readerClosed = false →
      ∀ ds, (runWrites (b.writeHeader s).1 ds).pipe.closed = false ∧
        readAll (runWrites (b.writeHeader s).1 ds).pipe = none) := by
  have h1 : ¬(b.request.method = "HEAD" ∨
      (statusMultipleChoices ≤ s ∧ s < statusBadRequest)) :=
    fun hc => hc.elim hm fun hr => absurd hr.1 (not_le.mpr hs)
  have h2 : ¬statusBadRequest ≤ s := not_le.mpr (lt_trans hs (by norm_num [statusBadRequest]))
  have hb : b.writeHeader s =
      ({ b with statusCode := s, contentLength := -1, headerDone := true },
        [Ev.setStatus s, Ev.firedHeaderDone]) := by
    unfold DelayedBody.writeHeader
    rw [if_neg h1, if_neg h2, if_pos hce]
  rw [hb]
  dsimp only
  refine ⟨rfl, rfl, rfl, rfl, fun ho hr ds => ?_⟩
  have h := runWrites_neg_no_autoclose ds
    { b with statusCode := s, contentLength := -1, headerDone := true }
    hm hs (by norm_num) ho hr
  refine ⟨h.1, ?_⟩
  unfold readAll
  rw [if_neg (by simp [h.2]), if_neg (by simp [h.1])]

/-- Closed witness for `content_encoding_no_autoclose`: with
`Content-Encoding: gzip` the pipe stays open across writes. -/
theorem content_encoding_no_autoclose_witness :
    (runWrites (({ initBody ⟨"GET", "/f"⟩ with
        header := { contentEncoding := "gzip", contentLength := "3" } } :
          DelayedBody).writeHeader 200).1 [[1], [2, 3], [4]]).pipe.closed = false := by
  have h := content_encoding_no_autoclose
    { initBody ⟨"GET", "/f"⟩ with
        header := { contentEncoding := "gzip", contentLength := "3" } } 200
    (by decide) (by decide) (by decide)
  exact (h.2.2.2.2 rfl rfl [[1], [2, 3], [4]]).1

/-- C10: for a non-HEAD request with a success-class status, no
Content-Encoding, and a Content-Length that parses to a negative integer,
header-finalize stores that negative value as the expected length and fires
the header-ready signal without closing the pipe, and no sequence of writes
ever auto-closes on a byte count, exactly as in the unknown-length case. -/
theorem negative_length_no_autoclose (b : DelayedBody) (s : Int) (cl : Int)
    (hm : b.request.method ≠ "HEAD") (hs : s < 300)
    (hce : b.header.contentEncoding = "")
    (hcl : goAtoi b.header.contentLength = Except.ok cl) (hneg : cl < 0) :
    (b.writeHeader s).1.contentLength = cl ∧
    (b.writeHeader s).1.headerDone = true ∧
    (b.writeHeader s).2 = [Ev.setStatus s, Ev.firedHeaderDone] ∧
    (b.writeHeader s).1.pipe = b.pipe ∧
    (b.pipe.closed = false → b.pipe.readerClosed = false →
      ∀ ds, (runWrites (b.writeHeader s).1 ds).pipe.closed = false) := by
  have h1 : ¬(b.request.method = "HEAD" ∨
      (statusMultipleChoices ≤ s ∧ s < statusBadRequest)) :=
    fun hc => hc.elim hm fun hr => absurd hr.1 (not_le.mpr hs)
  have h2 : ¬statusBadRequest ≤ s := not_le.mpr (lt_trans hs (by norm_num [statusBadRequest]))
  have h3 : ¬b.header.contentEncoding ≠ "" := fun hc => hc hce
  have hb : b.writeHeader s =
      ({ b with statusCode := s, contentLength := cl, headerDone := true },
        [Ev.setStatus s, Ev.firedHeaderDone]) := by
    unfold DelayedBody.writeHeader
    rw [if_neg h1, if_neg h2, if_neg h3, hcl]
    dsimp only
    rw [if_neg (by omega)]
  rw [hb]
  dsimp only
  refine ⟨rfl, rfl, rfl, rfl, fun ho hr ds => ?_⟩
  exact (runWrites_neg_no_autoclose ds
    { b with statusCode := s, contentLength := cl, headerDone := true }
    hm hs hneg ho hr).1

/-- Closed witness for `negative_length_no_autoclose`: with
`Content-Length: -7` the expected length is `-7` and writes never close the
pipe. -/
theorem negative_length_no_autoclose_witness :
    (({ initBody ⟨"GET", "/f"⟩ with
        header := { contentEncoding := "", contentLength := "-7" } } :
          DelayedBody).writeHeader 200).1.contentLength = -7 ∧
    (runWrites (({ initBody ⟨"GET", "/f"⟩ with
        header := { contentEncoding := "", contentLength := "-7" } } :
          DelayedBody).writeHeader 200).1 [[9], [9, 9]]).pipe.closed = false := by
  have h := negative_length_no_autoclose
    { initBody ⟨"GET", "/f"⟩ with
        header := { contentEncoding := "", contentLength := "-7" } } 200 (-7)
    (by decide) (by decide) rfl rfl (by decide)
  exact ⟨h.1, h.2.2.2.2 rfl rfl [[9], [9, 9]]⟩

theorem sumLen_nil : sumLen [] = 0 := rfl

theorem sumLen_cons (d : List Nat) (ds : List (List Nat)) :
    sumLen (d :: ds) = d.length + sumLen ds := by
  simp [sumLen]

theorem write_open_nonneg (b : DelayedBody) (d : List Nat)
    (hm : ¬b.request.method = "HEAD") (hs : b.statusCode < statusMultipleChoices)
    (h0 : 0 ≤ b.contentLength)
    (ho : b.pipe.closed = false) (hr : b.pipe.readerClosed = false) :
    b.write d = ((d.length, none),
      if b.contentLength ≤ b.written + (d.length : Int) then
        { b with written := b.written + (d.length : Int),
                 pipe := pipeCloseWrite { b.pipe with written := b.pipe.written ++ d } }
      else
        { b with written := b.written + (d.length : Int),
                 pipe := { b.pipe with written := b.pipe.written ++ d } }) := by
  have h1 : ¬(b.request.method = "HEAD" ∨ statusMultipleChoices ≤ b.statusCode) :=
    fun hc => hc.elim hm fun hle => absurd hle (not_le.mpr hs)
  have h2 : ¬(b.pipe.closed = true ∨ b.pipe.readerClosed = true) := by
    simp [ho, hr]
  unfold DelayedBody.write pipeWrite
  rw [if_neg h1, if_neg h2]
  dsimp only
  rw [if_pos h0]
  by_cases hreach : b.contentLength ≤ b.written + (d.length : Int)
  · rw [if_pos hreach, if_pos hreach]
  · rw [if_neg hreach, if_neg hreach]

theorem runWrites_exact (ds : List (List Nat)) (b : DelayedBody)
    (hm : ¬b.request.method = "HEAD") (hs : b.statusCode < statusMultipleChoices)
    (ho : b.pipe.closed = false) (hr : b.pipe.readerClosed = false)
    (hwp : (b.pipe.written.length : Int) = b.written)
    (hlt : b.written < b.contentLength)
    (hcross : ∃ k, b.written + (sumLen (ds.take k) : Int) = b.contentLength) :
    (runWrites b ds).pipe.closed = true ∧
    (runWrites b ds).pipe.readerClosed = false ∧
    ((runWrites b ds).pipe.written.length : Int) = b.contentLength ∧
    (runWrites b ds).pipe.readPos = b.pipe.readPos ∧
    (runWrites b ds).request = b.request ∧
    (runWrites b ds).statusCode = b.statusCode := by
  induction ds generalizing b with
  | nil =>
    exfalso
    obtain ⟨k, hk⟩ := hcross
    simp [sumLen] at hk
    omega
  | cons d ds ih =>
    obtain ⟨k, hk⟩ := hcross
    have hnn : (0 : Int) ≤ b.written := hwp ▸ Int.natCast_nonneg _
    have h0 : (0 : Int) ≤ b.contentLength := le_of_lt (lt_of_le_of_lt hnn hlt)
    simp only [runWrites]
    rw [write_open_nonneg b d hm hs h0 ho hr]
    dsimp only
    cases k with
    | zero =>
      exfalso
      rw [List.take_zero] at hk
      rw [sumLen_nil] at hk
      omega
    | succ k =>
      rw [List.take_succ_cons, sumLen_cons] at hk
      push_cast at hk
      have hS : (0 : Int) ≤ (sumLen (ds.take k) : Int) := Int.natCast_nonneg _
      by_cases hreach : b.contentLength ≤ b.written + (d.length : Int)
      · rw [if_pos hreach]
        have heq : b.written + (d.length : Int) = b.contentLength := by omega
        rw [runWrites_closed ds _ rfl]
        refine ⟨rfl, hr, ?_, rfl, rfl, rfl⟩
        show ((b.pipe.written ++ d).length : Int) = b.contentLength
        push_cast [List.length_append]
        omega
      · rw [if_neg hreach]
        have hout := ih { b with written := b.written + (d.length : Int), pipe := { b.pipe with written := b.pipe.written ++ d } }
          hm hs ho hr
          (by push_cast [List.length_append]; omega)
          (not_le.mp hreach)
          ⟨k, by push_cast; omega⟩
        exact hout

/-- C1, corrected: every successful producer write is delivered in full and
the pipe auto-closes at the first write whose completion brings the running
total to the declared positive Content-Length; hence whenever some prefix
of the write sequence totals exactly the declared length, exactly that many
bytes are readable before end-of-stream, and every later write fails. A
single write strictly overshooting the threshold delivers its excess bytes
(see the counterexample), so the original claim holds only for aligned
write sequences. -/
theorem content_length_exact_on_aligned (b : DelayedBody) (s L : Int) (ds : List (List Nat))
    (hm : b.request.method ≠ "HEAD") (hs : s < 300)
    (hce : b.header.contentEncoding = "")
    (hcl : goAtoi b.header.contentLength = Except.ok L) (hpos : 0 < L)
    (hp : b.pipe = emptyPipe) (hw : b.written = 0)
    (hx : ∃ k, (sumLen (ds.take k) : Int) = L) :
    ((runWrites (b.writeHeader s).1 ds).pipe.written.length : Int) = L ∧
    readAll (runWrites (b.writeHeader s).1 ds).pipe =
      some ((runWrites (b.writeHeader s).1 ds).pipe.written) ∧
    ∀ d, ((runWrites (b.writeHeader s).1 ds).write d).1 = (0, some ()) := by
  have h1 : ¬(b.request.method = "HEAD" ∨
      (statusMultipleChoices ≤ s ∧ s < statusBadRequest)) :=
    fun hc => hc.elim hm fun hr => absurd hr.1 (not_le.mpr hs)
  have h2 : ¬statusBadRequest ≤ s := not_le.mpr (lt_trans hs (by norm_num [statusBadRequest]))
  have h3 : ¬b.header.contentEncoding ≠ "" := fun hc => hc hce
  have hb : b.writeHeader s =
      ({ b with statusCode := s, contentLength := L, headerDone := true },
        [Ev.setStatus s, Ev.firedHeaderDone]) := by
    unfold DelayedBody.writeHeader
    rw [if_neg h1, if_neg h2, if_neg h3, hcl]
    dsimp only
    rw [if_neg (by omega)]
  rw [hb]
  dsimp only
  have hout := runWrites_exact ds
    { b with statusCode := s, contentLength := L, headerDone := true }
    hm hs (by simp [hp, emptyPipe]) (by simp [hp, emptyPipe])
    (by simp [hp, hw, emptyPipe]) (by dsimp only; omega)
    (by obtain ⟨k, hk⟩ := hx; exact ⟨k, by dsimp only; omega⟩)
  refine ⟨hout.2.2.1, ?_, fun d => ?_⟩
  · unfold readAll
    rw [if_neg (by simp [hout.2.1]), if_pos hout.1]
    rw [hout.2.2.2.1]
    simp [hp, emptyPipe]
  · have hreq : (runWrites { b with statusCode := s, contentLength := L, headerDone := true } ds).request.method = b.request.method := by
      rw [hout.2.2.2.2.1]
    have hsc : (runWrites { b with statusCode := s, contentLength := L, headerDone := true } ds).statusCode = s := by
      rw [hout.2.2.2.2.2]
    refine write_closed_err _ d hout.1 ?_
    intro hc
    rcases hc with hh | hle
    · rw [hreq] at hh
      exact hm hh
    · rw [hsc] at hle
      exact absurd hle (not_le.mpr hs)

/-- Closed witness for `content_length_exact_on_aligned`: with declared
length 2 and writes of one byte each, exactly two bytes are readable. -/
theorem content_length_exact_on_aligned_witness :
    ((runWrites (clBody2.writeHeader 200).1 [[1], [2]]).pipe.written.length : Int) = 2 ∧
    readAll (runWrites (clBody2.writeHeader 200).1 [[1], [2]]).pipe = some [1, 2] := by
  have h := content_length_exact_on_aligned clBody2 200 2 [[1], [2]]
    (by decide) (by decide) rfl rfl (by decide) rfl rfl ⟨2, by decide⟩
  exact ⟨h.1, by rw [h.2.1]; rfl⟩

/-- C1 counterexample: with declared Content-Length 1, a single producer
write of two bytes is delivered in full, so two bytes are readable before
end-of-stream rather than exactly the declared one. -/
theorem content_length_exact_counterexample :
    goAtoi clBody.header.contentLength = Except.ok 1 ∧
    clBody.header.contentEncoding = "" ∧
    clBody.request.method = "GET" ∧
    (runWrites (clBody.writeHeader 200).1 [[7, 7]]).pipe.closed = true ∧
    readAll (runWrites (clBody.writeHeader 200).1 [[7, 7]]).pipe = some [7, 7] ∧
    ¬readAll (runWrites (clBody.writeHeader 200).1 [[7, 7]]).pipe = some [7] := by
  refine ⟨rfl, rfl, rfl, rfl, rfl, ?_⟩
  decide

theorem applyAct_fires {b : DelayedBody} {a : ProdAct}
    (hb : b.headerDone = false) (hd : (applyAct b a).headerDone = true) :
    ∃ s, a = ProdAct.wh s ∧ (applyAct b a).statusCode = s := by
  cases a with
  | setContentEncoding v => exact absurd hd (by simp [applyAct, hb])
  | setContentLength v => exact absurd hd (by simp [applyAct, hb])
  | wh s => exact ⟨s, rfl, (writeHeader_fields b s).1⟩
  | wr d =>
    exfalso
    have hd' : ((b.write d).2).headerDone = true := hd
    rw [write_headerDone, hb] at hd'
    exact absurd hd' (by simp)

theorem runUntilHeader_some (acts : List ProdAct) (b : DelayedBody)
    (out : DelayedBody × List ProdAct)
    (hb : b.headerDone = false) (h : runUntilHeader b acts = some out) :
    out.1.headerDone = true ∧
    ∃ pre s, acts = pre ++ ProdAct.wh s :: out.2 ∧ out.1.statusCode = s := by
  induction acts generalizing b with
  | nil =>
    simp only [runUntilHeader] at h
    rw [if_neg (by simp [hb])] at h
    exact absurd h (by simp)
  | cons a rest ih =>
    simp only [runUntilHeader] at h
    rw [if_neg (by simp [hb])] at h
    by_cases hd : (applyAct b a).headerDone = true
    · have hstep : runUntilHeader (applyAct b a) rest = some (applyAct b a, rest) := by
        cases rest with
        | nil => simp only [runUntilHeader]; rw [if_pos hd]
        | cons r rs => simp only [runUntilHeader]; rw [if_pos hd]
      rw [hstep] at h
      obtain ⟨s, ha, hsc⟩ := applyAct_fires hb hd
      have hout : out = (applyAct b a, rest) := (Option.some.inj h).symm
      subst hout
      subst ha
      exact ⟨hd, [], s, rfl, hsc⟩
    · have hd' : (applyAct b a).headerDone = false := by
        cases hx : (applyAct b a).headerDone
        · rfl
        · exact absurd hx hd
      obtain ⟨ho, pre, s, hacts, hsc⟩ := ih (applyAct b a) hd' h
      exact ⟨ho, a :: pre, s, by rw [hacts, List.cons_append], hsc⟩

theorem runUntilHeader_none (acts : List ProdAct) (b : DelayedBody)
    (hb : b.headerDone = false) (hno : ∀ s, ProdAct.wh s ∉ acts) :
    runUntilHeader b acts = none := by
  induction acts generalizing b with
  | nil => simp [runUntilHeader, hb]
  | cons a rest ih =>
    simp only [runUntilHeader]
    rw [if_neg (by simp [hb])]
    apply ih
    · cases a with
      | setContentEncoding v => exact hb
      | setContentLength v => exact hb
      | wh s => exact absurd (List.mem_cons_self _ _) (hno s)
      | wr d =>
        show ((b.write d).2).headerDone = false
        rw [write_headerDone]
        exact hb
    · intro s hs
      exact hno s (List.mem_cons_of_mem _ hs)

/-- C6: the constructor runs the producer and returns exactly when the
header-ready signal fires: a return means some consumed prefix of the
producer's actions ended with the `WriteHeader` call that fired the signal,
and the returned response carries the status code and headers observed at
that moment, with the bridge itself as the lazily readable body; if the
producer never calls `WriteHeader`, the constructor never returns. -/
theorem newDelayed_blocks_until_header (req : GoRequest) (acts : List ProdAct) :
    (∀ rsp rest, newDelayed req acts = some (rsp, rest) →
      rsp.body.headerDone = true ∧
      rsp.statusCode = rsp.body.statusCode ∧
      rsp.header = rsp.body.header ∧
      ∃ pre s, acts = pre ++ ProdAct.wh s :: rest ∧ rsp.statusCode = s) ∧
    ((∀ s, ProdAct.wh s ∉ acts) → newDelayed req acts = none) := by
  constructor
  · intro rsp rest h
    unfold newDelayed at h
    cases hrun : runUntilHeader (initBody req) acts with
    | none =>
      rw [hrun] at h
      exact absurd h (by simp)
    | some o =>
      obtain ⟨b, r⟩ := o
      rw [hrun] at h
      dsimp only at h
      have hinj := Option.some.inj h
      rw [Prod.mk.injEq] at hinj
      obtain ⟨hr1, hr2⟩ := hinj
      obtain ⟨hdone, pre, s, hacts, hsc⟩ :=
        runUntilHeader_some acts (initBody req) (b, r) rfl hrun
      rw [← hr1, ← hr2]
      exact ⟨hdone, rfl, rfl, pre, s, hacts, hsc⟩
  · intro hno
    unfold newDelayed
    rw [runUntilHeader_none acts (initBody req) rfl hno]

/-- Closed witness for `newDelayed_blocks_until_header`: a producer that
immediately finalizes the header with 204 lets the constructor return with
the signal fired. -/
theorem newDelayed_blocks_until_header_witness :
    (((initBody ⟨"GET", "/a"⟩).writeHeader 204).1).headerDone = true := by
  have h := (newDelayed_blocks_until_header ⟨"GET", "/a"⟩ [ProdAct.wh 204]).1
    { statusCode := (((initBody ⟨"GET", "/a"⟩).writeHeader 204).1).statusCode,
      header := (((initBody ⟨"GET", "/a"⟩).writeHeader 204).1).header,
      body := ((initBody ⟨"GET", "/a"⟩).writeHeader 204).1 } [] rfl
  exact h.1

/-- C7: `static.Request` answers a request path shorter than the configured
web root with a bare 404 response carrying no bridge (so the producer is
never started); otherwise it serves the `newDelayed` response over the path
obtained by stripping the web-root-length leading characters from the
request path and joining the remainder onto the file system root; in both
cases the request is marked served (terminally handled). -/
theorem static_request_routes (f : Static) (ctx : FilterContext) :
    (f.Request ctx).served = true ∧
    (ctx.request.urlPath.length < f.webRoot.length →
      (f.Request ctx).response = some (ServedRsp.plain statusNotFound)) ∧
    (¬ctx.request.urlPath.length < f.webRoot.length →
      (f.Request ctx).response =
        some (ServedRsp.delayedOver
          (pathJoin f.root (ctx.request.urlPath.drop f.webRoot.length)))) := by
  unfold Static.Request FilterContext.Serve
  dsimp only
  by_cases h : ctx.request.urlPath.length < f.webRoot.length
  · rw [if_pos h]
    exact ⟨rfl, fun _ => rfl, fun hn => absurd h hn⟩
  · rw [if_neg h]
    exact ⟨rfl, fun hc => absurd hc h, fun _ => rfl⟩

/-- Closed witness for `static_request_routes`: with web root `/static/`, a
two-character request path is answered with the bare 404. -/
theorem static_request_routes_witness :
    ((Static.mk "/static/" "/var/www").Request
      { request := { method := "GET", urlPath := "/s" }, served := false,
        response := none }).response = some (ServedRsp.plain statusNotFound) := by
  exact (static_request_routes (Static.mk "/static/" "/var/www")
    { request := { method := "GET", urlPath := "/s" }, served := false,
      response := none }).2.1 (by decide)

/-- C9, corrected: the teardown close always returns `nil` and is
idempotent, also after the pipe was already closed by length-based
auto-close or by the header phase, and a read after a write-end-only close
returns end-of-stream once the transferred bytes are drained; but a read
after the teardown close returns the closed-pipe error rather than
end-of-stream, because the teardown also closes the read end. -/
theorem close_idempotent_semantics (b : DelayedBody) :
    (b.close).1 = none ∧
    ((b.close).2.close).1 = none ∧
    ((b.close).2.close).2 = (b.close).2 ∧
    (∀ n, (((b.close).2).read n).1 = ReadOutcome.errClosed) ∧
    (b.pipe.readerClosed = false → b.pipe.closed = true →
      b.pipe.written.drop b.pipe.readPos = [] →
      ∀ n, (b.read n).1 = ReadOutcome.eof) := by
  refine ⟨rfl, rfl, rfl, fun n => rfl, fun h1 h2 h3 n => ?_⟩
  show (pipeRead b.pipe n).1 = ReadOutcome.eof
  unfold pipeRead
  rw [if_neg (by simp [h1])]
  dsimp only
  rw [h3, if_pos rfl, if_pos h2]

/-- Closed witness for `close_idempotent_semantics`: a read on a bridge
whose pipe was closed by the header phase (status 304) with the read end
open returns end-of-stream. -/
theorem close_idempotent_semantics_witness :
    ((((initBody ⟨"GET", "/x"⟩).writeHeader 304).1).read 5).1 = ReadOutcome.eof := by
  have h := close_idempotent_semantics (((initBody ⟨"GET", "/x"⟩).writeHeader 304).1)
  exact h.2.2.2.2 rfl rfl rfl 5

/-- C9 counterexample: after the pipe auto-closed on the declared length
and the consumer then ran the teardown close, a further read returns the
closed-pipe error and not end-of-stream, refuting that every read after any
close returns end-of-stream. -/
theorem close_then_read_not_eof :
    ((((runWrites (clBody.writeHeader 200).1 [[7]]).close).2).read 1).1 =
      ReadOutcome.errClosed ∧
    ReadOutcome.errClosed ≠ ReadOutcome.eof := by
  decide

end Skipper
